import Mathlib

/-!
Verification of the pluggable device-memory allocator examples and numeric
kernels of the nvidia-cuda-tutorial repository.

The embedding models the two EMM plugin classes of session 5
(CuPyNumbaManager in cupy_emm_plugin.py and MyEMMPlugin together with
my_alloc / my_free in simple_emm_plugin.py), the deferred-cleanup scope
described by the specification, the mandel and create_fractal device
functions of session 1, and the quaternion addition of session 4.

Python exceptions are modelled as values carrying the exception class name
and the message; machine pointers are natural numbers; requested sizes are
integers (Python ints); float arithmetic in the numeric kernels is
idealised as exact rational arithmetic.
-/

/-- A Python exception value: the class name and the message string. -/
structure PyExc where
  cls : String
  msg : String
deriving DecidableEq

/-- Model of the external CuPy memory pool (cupy.get_default_memory_pool()).
The pool hands out addresses that are unique among currently live
allocations; this is modelled soundly by a monotone counter nextPtr.
mallocLog records every size ever requested from the pool, and
freeAllCalls counts the invocations of free_all_blocks. -/
structure Pool where
  nextPtr : Nat
  mallocLog : List Int
  freeAllCalls : Nat
deriving DecidableEq

/-- Pool.malloc(nbytes): returns a fresh device pointer and the updated pool
state, recording the requested size. -/
def Pool.malloc (p : Pool) (nbytes : Int) : Nat × Pool :=
  (p.nextPtr, { p with nextPtr := p.nextPtr + 1, mallocLog := p.mallocLog ++ [nbytes] })

/-- Pool.free_all_blocks(): instructs the pool to release its cached blocks;
modelled by counting the calls. -/
def Pool.free_all_blocks (p : Pool) : Pool :=
  { p with freeAllCalls := p.freeAllCalls + 1 }

/-- State of CuPyNumbaManager (cupy_emm_plugin.py): the optional pool
reference self._mp (None until initialize is called) and the key set of the
self._allocations dict, kept in insertion order as Python dicts do. -/
structure CuPyNumbaManager where
  mp : Option Pool
  allocations : List Nat
deriving DecidableEq

/-- CuPyNumbaManager.__init__: self._allocations = \x7b\x7d, self._mp = None. -/
def CuPyNumbaManager.new : CuPyNumbaManager :=
  { mp := none, allocations := [] }

/-- CuPyNumbaManager.initialize: binds the manager to the context pool
(self._mp = cupy.get_default_memory_pool()). -/
def CuPyNumbaManager.runInit (m : CuPyNumbaManager) (p : Pool) : CuPyNumbaManager :=
  { m with mp := some p }

/-- Python dict key insertion d[k] = v: the key is appended if absent,
otherwise the key set is unchanged (the value is overwritten). -/
def insertKey (l : List Nat) (k : Nat) : List Nat :=
  if k ∈ l then l else l ++ [k]

/-- A Numba MemoryPointer as returned by memalloc: the device address and
the requested size. -/
structure MemoryPointer where
  ptr : Nat
  nbytes : Int
deriving DecidableEq

/-- CuPyNumbaManager.memalloc: when self._mp is None (initialize not yet
called) the attribute access self._mp.malloc raises AttributeError; when the
pool is bound, the size is forwarded unvalidated to the pool, the returned
address is recorded in self._allocations, and a MemoryPointer is returned. -/
def CuPyNumbaManager.memalloc (m : CuPyNumbaManager) (nbytes : Int) :
    Except PyExc (MemoryPointer × CuPyNumbaManager) :=
  match m.mp with
  | none =>
      .error { cls := "AttributeError", msg := "NoneType object has no attribute malloc" }
  | some p =>
      let pr := p.malloc nbytes
      .ok ({ ptr := pr.1, nbytes := nbytes },
           { m with mp := some pr.2, allocations := insertKey m.allocations pr.1 })

/-- The finalizer built by CuPyNumbaManager._make_finalizer for a given
address: allocations.pop(ptr) removes exactly that entry; a Python dict pop
of an absent key raises KeyError. -/
def CuPyNumbaManager.finalizer (m : CuPyNumbaManager) (ptr : Nat) :
    Except PyExc CuPyNumbaManager :=
  if ptr ∈ m.allocations then .ok { m with allocations := m.allocations.erase ptr }
  else .error { cls := "KeyError", msg := "pop" }

/-- CuPyNumbaManager.reset: if self._mp is set, call free_all_blocks on the
pool; otherwise do nothing. No live-allocation check is performed and no
error is ever raised. -/
def CuPyNumbaManager.reset (m : CuPyNumbaManager) : Except PyExc CuPyNumbaManager :=
  match m.mp with
  | none => .ok m
  | some p => .ok { m with mp := some p.free_all_blocks }

/-- An operation on the pool-backed manager: an allocation of a given size,
or the run of the finalizer attached to a given address. -/
inductive MOp where
  | alloc (nbytes : Int)
  | finalize (ptr : Nat)
deriving DecidableEq

/-- One operation step; none when the Python code would raise. -/
def MOp.step (m : CuPyNumbaManager) : MOp → Option CuPyNumbaManager
  | .alloc n =>
      match m.memalloc n with
      | .ok pr => some pr.2
      | .error _ => none
  | .finalize p =>
      match m.finalizer p with
      | .ok m2 => some m2
      | .error _ => none

/-- Run a sequence of operations; none if any step raises. -/
def runOps (m : CuPyNumbaManager) : List MOp → Option CuPyNumbaManager
  | [] => some m
  | op :: ops =>
      match MOp.step m op with
      | some m2 => runOps m2 ops
      | none => none

/-- Number of allocations in an operation sequence. -/
def allocCount : List MOp → Nat
  | [] => 0
  | .alloc _ :: ops => allocCount ops + 1
  | .finalize _ :: ops => allocCount ops

/-- Number of finalizer runs in an operation sequence. -/
def finCount : List MOp → Nat
  | [] => 0
  | .alloc _ :: ops => finCount ops
  | .finalize _ :: ops => finCount ops + 1

/-- Manager well-formedness: the allocation table holds no duplicate
address, and every tracked address was handed out by the pool. -/
def GoodMgr (m : CuPyNumbaManager) : Prop :=
  m.allocations.Nodup ∧ ∀ p, m.mp = some p → ∀ k ∈ m.allocations, k < p.nextPtr

theorem runOps_balance (ops : List MOp) :
    ∀ m m2, GoodMgr m → runOps m ops = some m2 →
      GoodMgr m2 ∧
      m2.allocations.length + finCount ops = m.allocations.length + allocCount ops := by
  induction ops with
  | nil =>
      intro m m2 hg h
      simp only [runOps] at h
      cases h
      simpa [allocCount, finCount] using hg
  | cons op ops ih =>
      intro m m2 hg h
      cases op with
      | alloc n =>
          simp only [runOps, MOp.step, CuPyNumbaManager.memalloc] at h
          cases hmp : m.mp with
          | none => rw [hmp] at h; exact absurd h (by simp)
          | some p =>
              rw [hmp] at h
              simp only [Pool.malloc] at h
              have hfresh : p.nextPtr ∉ m.allocations := by
                intro hmem
                exact absurd (hg.2 p hmp _ hmem) (lt_irrefl _)
              have hkey : insertKey m.allocations p.nextPtr = m.allocations ++ [p.nextPtr] := by
                simp [insertKey, hfresh]
              rw [hkey] at h
              have hg1 : GoodMgr { mp := some { nextPtr := p.nextPtr + 1, mallocLog := p.mallocLog ++ [n], freeAllCalls := p.freeAllCalls }, allocations := m.allocations ++ [p.nextPtr] } := by
                constructor
                · refine List.Nodup.append hg.1 (List.nodup_singleton _) ?_
                  intro x hx hx2
                  simp only [List.mem_singleton] at hx2
                  subst hx2
                  exact hfresh hx
                · intro q hq k hk
                  simp only [Option.some.injEq] at hq
                  subst hq
                  simp only [List.mem_append, List.mem_singleton] at hk
                  rcases hk with hk | hk
                  · exact Nat.lt_succ_of_lt (hg.2 p hmp _ hk)
                  · simp [hk]
              obtain ⟨hg2, hlen⟩ := ih _ m2 hg1 h
              refine ⟨hg2, ?_⟩
              simp only [List.length_append, List.length_singleton] at hlen
              simp only [allocCount, finCount]
              omega
      | finalize ptr =>
          simp only [runOps, MOp.step, CuPyNumbaManager.finalizer] at h
          by_cases hmem : ptr ∈ m.allocations
          · rw [if_pos hmem] at h
            have hg1 : GoodMgr { mp := m.mp, allocations := m.allocations.erase ptr } := by
              constructor
              · exact List.Nodup.erase _ hg.1
              · intro q hq k hk
                exact hg.2 q hq k (List.mem_of_mem_erase hk)
            obtain ⟨hg2, hlen⟩ := ih _ m2 hg1 h
            refine ⟨hg2, ?_⟩
            have herase := List.length_erase_of_mem hmem
            have hpos : 0 < m.allocations.length := List.length_pos_of_mem hmem
            simp only [herase] at hlen
            simp only [allocCount, finCount]
            omega
          · rw [if_neg hmem] at h
            exact absurd h (by simp)

/-- C1: starting from a freshly initialized pool-backed manager, for every
sequence of allocate and finalizer-run operations that executes without
raising, the number of entries in the allocation table equals the number of
allocations made minus the number of finalizers actually run, the count of
finalizer runs never exceeds the count of allocations (so the difference
never goes negative), and the table holds no duplicate entry (each
finalizer removed exactly its own entry exactly once). -/
theorem allocation_table_balance (p : Pool) (ops : List MOp) (m2 : CuPyNumbaManager)
    (h : runOps (CuPyNumbaManager.new.runInit p) ops = some m2) :
    m2.allocations.length = allocCount ops - finCount ops ∧
    finCount ops ≤ allocCount ops ∧
    m2.allocations.Nodup := by
  have hg : GoodMgr (CuPyNumbaManager.new.runInit p) := by
    constructor
    · simp [CuPyNumbaManager.new, CuPyNumbaManager.runInit]
    · intro q hq k hk
      simp [CuPyNumbaManager.new, CuPyNumbaManager.runInit] at hk
  obtain ⟨hg2, hlen⟩ := runOps_balance ops _ m2 hg h
  simp only [CuPyNumbaManager.new, CuPyNumbaManager.runInit, List.length_nil] at hlen
  exact ⟨by omega, by omega, hg2.1⟩

/-- An initial empty pool used for concrete evaluations. -/
def pool0 : Pool := { nextPtr := 0, mallocLog := [], freeAllCalls := 0 }

def opsW : List MOp := [.alloc 1024, .alloc 1024, .finalize 0]

def mgrW : CuPyNumbaManager :=
  { mp := some { nextPtr := 2, mallocLog := [1024, 1024], freeAllCalls := 0 },
    allocations := [1] }

/-- Witness for C1: two allocations followed by one finalizer run leave
exactly one table entry. -/
theorem allocation_table_balance_witness :
    mgrW.allocations.length = allocCount opsW - finCount opsW ∧
    finCount opsW ≤ allocCount opsW ∧
    mgrW.allocations.Nodup :=
  allocation_table_balance pool0 opsW mgrW (by decide)

/-- The CUDA runtime environment seen by the ctypes bindings of
simple_emm_plugin.py. retOf and ptrOf give the return code and the pointer
value cudaMalloc produces for a requested size, freeRetOf gives the return
code of cudaFree for a pointer; mallocCalls and freeCalls log every call
that reaches the driver. -/
structure CudaRT where
  retOf : Int → Nat
  ptrOf : Int → Nat
  freeRetOf : Nat → Nat
  mallocCalls : List Int
  freeCalls : List Nat

/-- The cudaMalloc binding: produces (return code, pointer) and records the
requested size in the call log. -/
def CudaRT.cudaMalloc (rt : CudaRT) (size : Int) : (Nat × Nat) × CudaRT :=
  ((rt.retOf size, rt.ptrOf size), { rt with mallocCalls := rt.mallocCalls ++ [size] })

/-- The cudaFree binding: produces a return code and records the pointer in
the call log. -/
def CudaRT.cudaFree (rt : CudaRT) (ptr : Nat) : Nat × CudaRT :=
  (rt.freeRetOf ptr, { rt with freeCalls := rt.freeCalls ++ [ptr] })

/-- my_alloc (simple_emm_plugin.py): calls cudaMalloc; any nonzero return
code raises RuntimeError with the code interpolated into the message;
otherwise the pointer is returned. -/
def my_alloc (rt : CudaRT) (size : Int) : Except PyExc Nat × CudaRT :=
  let r := rt.cudaMalloc size
  if r.1.1 ≠ 0 then
    (.error { cls := "RuntimeError", msg := "Unexpected return code " ++ toString r.1.1 }, r.2)
  else
    (.ok r.1.2, r.2)

/-- my_free (simple_emm_plugin.py): calls cudaFree and discards its return
code; it never raises. -/
def my_free (rt : CudaRT) (ptr : Nat) : CudaRT :=
  (rt.cudaFree ptr).2

/-- The simple plugin MyEMMPlugin. Its initialize method has an empty body,
so the only state is the external record of whether initialize was called. -/
structure MyEMMPlugin where
  initCalled : Bool

/-- MyEMMPlugin.initialize: the body is pass; nothing in the plugin
changes, only the external record of the call. -/
def MyEMMPlugin.runInit (_ : MyEMMPlugin) : MyEMMPlugin :=
  { initCalled := true }

/-- MyEMMPlugin.memalloc: calls my_alloc and wraps the pointer in a
MemoryPointer. No initialization check is made, so the result does not
depend on initCalled. -/
def MyEMMPlugin.memalloc (_ : MyEMMPlugin) (rt : CudaRT) (size : Int) :
    Except PyExc MemoryPointer × CudaRT :=
  let r := my_alloc rt size
  (r.1.map fun ptr => { ptr := ptr, nbytes := size }, r.2)

/-- A well-behaved driver environment: every allocation succeeds with
pointer value 1000, every free succeeds. -/
def rtGood : CudaRT :=
  { retOf := fun _ => 0, ptrOf := fun _ => 1000, freeRetOf := fun _ => 0,
    mallocCalls := [], freeCalls := [] }

/-- Counterexample to C3 as stated: the simple plugin in the uninitialized
state (initialize never called) allocates successfully under a well-behaved
driver — no NotInitialized failure occurs, because memalloc performs no
initialization check. -/
theorem memalloc_before_init_succeeds_simple :
    (MyEMMPlugin.memalloc { initCalled := false } rtGood 16).1 =
      Except.ok { ptr := 1000, nbytes := 16 } := rfl

/-- C3 amended: for the pool-backed manager, allocate before initialize
fails (the unbound pool reference is None, so the attribute access raises
AttributeError — the NotInitialized signal of this code) and no state with
a new table entry is produced; the simple plugin performs no initialization
check and allocate succeeds whenever the driver call succeeds. -/
theorem memalloc_before_init (m : CuPyNumbaManager) (h : m.mp = none) (n : Int) :
    m.memalloc n =
      .error { cls := "AttributeError", msg := "NoneType object has no attribute malloc" } ∧
    ∀ (s : MyEMMPlugin) (rt : CudaRT) (size : Int), rt.retOf size = 0 →
      (s.memalloc rt size).1 = .ok { ptr := rt.ptrOf size, nbytes := size } := by
  constructor
  · simp [CuPyNumbaManager.memalloc, h]
  · intro s rt size hret
    simp [MyEMMPlugin.memalloc, my_alloc, CudaRT.cudaMalloc, hret, Except.map]

/-- Witness for C3 amended: a fresh pool-backed manager raises
AttributeError on allocate. -/
theorem memalloc_before_init_witness :
    CuPyNumbaManager.new.memalloc 16 =
      .error { cls := "AttributeError", msg := "NoneType object has no attribute malloc" } :=
  (memalloc_before_init CuPyNumbaManager.new rfl 16).1

/-- A pool-backed manager holding one live allocation. -/
def mgrBusy : CuPyNumbaManager := { mp := some pool0, allocations := [7] }

/-- Counterexample to C4 as stated: reset on a manager with a live
allocation does not fail with ResourceBusy; it succeeds and instructs the
pool to release all cached blocks (freeAllCalls increments). -/
theorem reset_busy_no_error :
    mgrBusy.reset =
      .ok { mp := some { nextPtr := 0, mallocLog := [], freeAllCalls := 1 },
            allocations := [7] } := rfl

/-- C4 amended: reset performs no live-allocation check; it never fails
with ResourceBusy, and whenever the pool is bound it instructs the pool to
free its cached blocks, even while live allocations exist. -/
theorem reset_no_busy_check (m : CuPyNumbaManager) (p : Pool) (h : m.mp = some p) :
    m.reset = .ok { m with mp := some { p with freeAllCalls := p.freeAllCalls + 1 } } := by
  simp [CuPyNumbaManager.reset, h, Pool.free_all_blocks]

/-- Witness for C4 amended: the busy manager resets successfully. -/
theorem reset_no_busy_check_witness :
    mgrBusy.reset =
      .ok { mgrBusy with mp := some { pool0 with freeAllCalls := pool0.freeAllCalls + 1 } } :=
  reset_no_busy_check mgrBusy pool0 rfl

/-- A freshly initialized pool-backed manager over the empty pool. -/
def mgrInit0 : CuPyNumbaManager := CuPyNumbaManager.new.runInit pool0

/-- Counterexample to C5 as stated: allocate(0) does not fail with a
validation error; the request reaches the backing pool (the pool malloc log
records the size 0) and succeeds. -/
theorem memalloc_zero_reaches_pool :
    mgrInit0.memalloc 0 =
      .ok ({ ptr := 0, nbytes := 0 },
           { mp := some { nextPtr := 1, mallocLog := [0], freeAllCalls := 0 },
             allocations := [0] }) := rfl

/-- C5 amended: neither plugin validates the requested size; memalloc
forwards every size — zero and negative included — unchanged to the backing
allocator (the pool malloc log and the driver call log record it). -/
theorem memalloc_forwards_size (m : CuPyNumbaManager) (p : Pool) (h : m.mp = some p)
    (n : Int) (s : MyEMMPlugin) (rt : CudaRT) :
    m.memalloc n =
      .ok ({ ptr := p.nextPtr, nbytes := n },
           { m with
             mp := some { p with nextPtr := p.nextPtr + 1, mallocLog := p.mallocLog ++ [n] },
             allocations := insertKey m.allocations p.nextPtr }) ∧
    (s.memalloc rt n).2.mallocCalls = rt.mallocCalls ++ [n] := by
  constructor
  · simp [CuPyNumbaManager.memalloc, h, Pool.malloc]
  · by_cases hc : rt.retOf n ≠ 0 <;>
      simp [MyEMMPlugin.memalloc, my_alloc, CudaRT.cudaMalloc, hc]

/-- Witness for C5 amended: a negative size (-3) is forwarded to both
backing allocators. -/
theorem memalloc_forwards_size_witness :
    mgrInit0.memalloc (-3) =
      .ok ({ ptr := pool0.nextPtr, nbytes := -3 },
           { mgrInit0 with
             mp := some { pool0 with nextPtr := pool0.nextPtr + 1, mallocLog := pool0.mallocLog ++ [-3] },
             allocations := insertKey mgrInit0.allocations pool0.nextPtr }) ∧
    (MyEMMPlugin.memalloc { initCalled := true } rtGood (-3)).2.mallocCalls =
      rtGood.mallocCalls ++ [-3] :=
  memalloc_forwards_size mgrInit0 pool0 rfl (-3) { initCalled := true } rtGood

/-- A driver environment whose cudaFree always reports failure (return code
1, an invalid-handle style error). -/
def rtBadFree : CudaRT :=
  { retOf := fun _ => 0, ptrOf := fun _ => 1000, freeRetOf := fun _ => 1,
    mallocCalls := [], freeCalls := [] }

/-- Counterexample to C6 as stated: my_free on a pointer the driver rejects
(cudaFree returns the nonzero code 1) raises nothing — the return code is
discarded and the call completes silently. -/
theorem my_free_ignores_error :
    rtBadFree.freeRetOf 42 = 1 ∧
    my_free rtBadFree 42 = { rtBadFree with freeCalls := [42] } :=
  ⟨rfl, rfl⟩

/-- C6 amended: the pool-backed finalizer surfaces a free of an untracked
address as a KeyError (so a double-free is detected there), while the
simple plugin discards the cudaFree return code entirely: my_free always
completes normally, silently ignoring invalid handles. -/
theorem free_unknown_handle (m : CuPyNumbaManager) (ptr : Nat)
    (h : ptr ∉ m.allocations) (rt : CudaRT) (q : Nat) :
    m.finalizer ptr = .error { cls := "KeyError", msg := "pop" } ∧
    my_free rt q = { rt with freeCalls := rt.freeCalls ++ [q] } := by
  constructor
  · simp [CuPyNumbaManager.finalizer, h]
  · rfl

/-- Witness for C6 amended: the fresh manager rejects finalizing address 5,
and my_free under the failing driver still completes. -/
theorem free_unknown_handle_witness :
    CuPyNumbaManager.new.finalizer 5 = .error { cls := "KeyError", msg := "pop" } ∧
    my_free rtBadFree 42 = { rtBadFree with freeCalls := rtBadFree.freeCalls ++ [42] } :=
  free_unknown_handle CuPyNumbaManager.new 5 (by simp [CuPyNumbaManager.new]) rtBadFree 42

/-- A driver environment whose cudaMalloc always fails with the given
return code. Code 2 is the out-of-memory code (cudaErrorMemoryAllocation);
code 1 is a misconfiguration code (cudaErrorInvalidValue). -/
def rtRet (r : Nat) : CudaRT :=
  { retOf := fun _ => r, ptrOf := fun _ => 0, freeRetOf := fun _ => 0,
    mallocCalls := [], freeCalls := [] }

/-- Counterexample to C7 as stated: the exception raised by my_alloc for
the out-of-memory return code 2 has the same exception class (RuntimeError)
as the one raised for the misconfiguration return code 1, so retry logic
dispatching on the exception class cannot single out the out-of-memory
case. -/
theorem my_alloc_same_class :
    (my_alloc (rtRet 2) 8).1 =
      .error { cls := "RuntimeError", msg := "Unexpected return code 2" } ∧
    (my_alloc (rtRet 1) 8).1 =
      .error { cls := "RuntimeError", msg := "Unexpected return code 1" } :=
  ⟨rfl, rfl⟩

/-- C7 amended: every nonzero cudaMalloc return code makes my_alloc raise
the one generic RuntimeError class; the failure cause is recorded only as
the numeric return code embedded in the message, not as a distinct
out-of-memory exception type. -/
theorem my_alloc_failure_uniform (rt : CudaRT) (size : Int) (h : rt.retOf size ≠ 0) :
    (my_alloc rt size).1 =
      .error { cls := "RuntimeError",
               msg := "Unexpected return code " ++ toString (rt.retOf size) } := by
  simp [my_alloc, CudaRT.cudaMalloc, h]

/-- Witness for C7 amended: the out-of-memory code 2 raises the generic
RuntimeError. -/
theorem my_alloc_failure_uniform_witness :
    (my_alloc (rtRet 2) 8).1 =
      .error { cls := "RuntimeError",
               msg := "Unexpected return code " ++ toString ((rtRet 2).retOf 8) } :=
  my_alloc_failure_uniform (rtRet 2) 8 (by decide)

/-- A pending finalizer: the address it releases and whether its run
raises (e.g. a detected double-free). -/
structure Finalizer where
  ptr : Nat
  raises : Bool
deriving DecidableEq

/-- Modelled from the spec: the DeferredReclaimer state of section 4.3.
The deferral machinery belongs to the host runtime; the plugin only wraps
it (CuPyNumbaManager.defer_cleanup delegates to the superclass context
manager), so the implementation is not under src/ and is modelled from the
words of the spec: a reference-counted scope depth, a queue of finalizers
pending while the depth is positive, a flush on outermost scope exit that
invokes every queued finalizer exactly once and collects rather than
propagates the errors of raising finalizers. ran logs every finalizer
invocation (the underlying release actions); errs logs collected
failures. -/
structure DeferState where
  depth : Nat
  queue : List Finalizer
  ran : List Nat
  errs : List Nat
deriving DecidableEq

/-- Invoke one finalizer: the release action runs (logged in ran); if the
finalizer raises, the error is collected in errs and execution continues. -/
def runFinalizer (s : DeferState) (f : Finalizer) : DeferState :=
  { s with ran := s.ran ++ [f.ptr],
           errs := s.errs ++ (if f.raises then [f.ptr] else []) }

/-- Flush the deferral queue: every queued finalizer is invoked, in order,
each exactly once, and the queue is emptied. -/
def flushQueue (s : DeferState) : DeferState :=
  List.foldl runFinalizer { s with queue := [] } s.queue

/-- Events of the deferred-cleanup scope: entering a scope, leaving a
scope, and dropping a managed pointer (its finalizer becomes due). -/
inductive DOp where
  | enter
  | leave
  | drop (f : Finalizer)

/-- Modelled from the spec: one step of the DeferredReclaimer. Entering
increments the depth; a finalizer due while the depth is positive is
queued instead of run; leaving the outermost scope flushes the queue. -/
def stepDefer (s : DeferState) : DOp → DeferState
  | .enter => { s with depth := s.depth + 1 }
  | .leave =>
      if s.depth = 1 then flushQueue { s with depth := 0 }
      else { s with depth := s.depth - 1 }
  | .drop f =>
      if s.depth = 0 then runFinalizer s f
      else { s with queue := s.queue ++ [f] }

/-- Run a sequence of deferral events. -/
def runDefer (s : DeferState) (ops : List DOp) : DeferState :=
  List.foldl stepDefer s ops

/-- The initial deferral state: no scope active, nothing pending. -/
def deferInit : DeferState := { depth := 0, queue := [], ran := [], errs := [] }

theorem foldl_runFinalizer (fs : List Finalizer) :
    ∀ s, List.foldl runFinalizer s fs =
      { s with ran := s.ran ++ fs.map Finalizer.ptr,
               errs := s.errs ++ (fs.filter fun f => f.raises).map Finalizer.ptr } := by
  induction fs with
  | nil => intro s; simp
  | cons f fs ih =>
      intro s
      rw [List.foldl_cons, ih]
      by_cases hf : f.raises <;>
        simp [runFinalizer, hf, List.filter_cons, List.append_assoc]

theorem runDefer_drops (fs : List Finalizer) :
    ∀ s : DeferState, s.depth ≠ 0 →
      runDefer s (fs.map DOp.drop) = { s with queue := s.queue ++ fs } := by
  induction fs with
  | nil => intro s _; simp [runDefer]
  | cons f fs ih =>
      intro s hd
      simp only [List.map_cons, runDefer, List.foldl_cons]
      have hstep : stepDefer s (DOp.drop f) = { s with queue := s.queue ++ [f] } := by
        simp [stepDefer, hd]
      rw [hstep]
      have hrec := ih { s with queue := s.queue ++ [f] } (by simpa using hd)
      simp only [runDefer] at hrec
      rw [hrec]
      simp [List.append_assoc]

/-- C2: dropping any set of managed pointers while a deferred-cleanup scope
is active runs zero release actions before the scope exits, and by the time
the scope has exited every one of their finalizers has run exactly once (the
run log equals the dropped list itself), even when some finalizers raise —
the raising ones still run, their errors are collected, and the rest are not
skipped. -/
theorem deferred_scope_exactly_once (fs : List Finalizer) :
    (runDefer deferInit (DOp.enter :: fs.map DOp.drop)).ran = [] ∧
    (runDefer deferInit ((DOp.enter :: fs.map DOp.drop) ++ [DOp.leave])).ran =
      fs.map Finalizer.ptr ∧
    (runDefer deferInit ((DOp.enter :: fs.map DOp.drop) ++ [DOp.leave])).errs =
      (fs.filter fun f => f.raises).map Finalizer.ptr := by
  have h1 : runDefer deferInit (DOp.enter :: fs.map DOp.drop) =
      { depth := 1, queue := fs, ran := [], errs := [] } := by
    have henter : stepDefer deferInit DOp.enter =
        { depth := 1, queue := [], ran := [], errs := [] } := rfl
    have h2 := runDefer_drops fs { depth := 1, queue := [], ran := [], errs := [] } (by simp)
    simp only [runDefer, List.foldl_cons, henter]
    simpa [runDefer] using h2
  have h3 : runDefer deferInit ((DOp.enter :: fs.map DOp.drop) ++ [DOp.leave]) =
      List.foldl runFinalizer { depth := 0, queue := [], ran := [], errs := [] } fs := by
    simp only [runDefer, List.foldl_append]
    have h1f : List.foldl stepDefer deferInit (DOp.enter :: fs.map DOp.drop) =
        { depth := 1, queue := fs, ran := [], errs := [] } := h1
    rw [h1f]
    simp [stepDefer, flushQueue]
  refine ⟨by rw [h1], ?_, ?_⟩
  · rw [h3, foldl_runFinalizer]
    simp
  · rw [h3, foldl_runFinalizer]
    simp

/-- The Mandelbrot orbit of mandel (mandel_cuda.py): the iterate z after n
updates of z = z*z + c starting from z = 0, with c = x + y i, given as the
pair (real part, imaginary part). Float arithmetic is idealised as exact
rational arithmetic. -/
def orbit (x y : ℚ) : Nat → ℚ × ℚ
  | 0 => (0, 0)
  | n + 1 =>
      let z := orbit x y n
      (z.1 * z.1 - z.2 * z.2 + x, 2 * z.1 * z.2 + y)

/-- The escape test of the loop body: after i+1 updates the squared
magnitude z.real * z.real + z.imag * z.imag reaches 4. -/
def escaped (x y : ℚ) (i : Nat) : Prop :=
  4 ≤ (orbit x y (i + 1)).1 * (orbit x y (i + 1)).1 +
      (orbit x y (i + 1)).2 * (orbit x y (i + 1)).2

instance (x y : ℚ) (i : Nat) : Decidable (escaped x y i) := by
  unfold escaped
  infer_instance

/-- The loop of mandel, starting at iterate number i with z = (zr, zi) and
fuel remaining iterations: each pass applies one update and returns the
current index when the update escapes; exhausted fuel yields 255. -/
def mandelLoop (x y zr zi : ℚ) (i fuel : Nat) : Nat :=
  match fuel with
  | 0 => 255
  | fuel + 1 =>
      let zr2 := zr * zr - zi * zi + x
      let zi2 := 2 * zr * zi + y
      if 4 ≤ zr2 * zr2 + zi2 * zi2 then i
      else mandelLoop x y zr2 zi2 (i + 1) fuel

/-- mandel (mandel_cuda.py): run the update z = z*z + c from z = 0 for at
most max_iters iterations, returning the index of the first escaping
update, and 255 when none escapes. -/
def mandel (x y : ℚ) (maxIters : Nat) : Nat :=
  mandelLoop x y 0 0 0 maxIters

theorem mandelLoop_spec (x y : ℚ) :
    ∀ fuel i : Nat,
      ((∀ j, i ≤ j → j < i + fuel → ¬ escaped x y j) →
        mandelLoop x y (orbit x y i).1 (orbit x y i).2 i fuel = 255) ∧
      (∀ k, i ≤ k → k < i + fuel → escaped x y k →
        (∀ j, i ≤ j → j < k → ¬ escaped x y j) →
        mandelLoop x y (orbit x y i).1 (orbit x y i).2 i fuel = k) := by
  intro fuel
  induction fuel with
  | zero =>
      intro i
      refine ⟨fun _ => rfl, fun k hik hk _ _ => absurd hk (by omega)⟩
  | succ fuel ih =>
      intro i
      have hunfold : mandelLoop x y (orbit x y i).1 (orbit x y i).2 i (fuel + 1) =
          if escaped x y i then i
          else mandelLoop x y (orbit x y (i + 1)).1 (orbit x y (i + 1)).2 (i + 1) fuel := by
        simp only [mandelLoop, escaped, orbit]
      by_cases hesc : escaped x y i
      · rw [hunfold, if_pos hesc]
        constructor
        · intro hnone
          exact absurd hesc (hnone i le_rfl (by omega))
        · intro k hik hk _ hmin
          rcases Nat.lt_or_ge i k with hlt | hge
          · exact absurd hesc (hmin i le_rfl hlt)
          · omega
      · rw [hunfold, if_neg hesc]
        constructor
        · intro hnone
          exact (ih (i + 1)).1 fun j hj1 hj2 => hnone j (by omega) (by omega)
        · intro k hik hk hkesc hmin
          have hne : i ≠ k := by
            intro hik2
            exact hesc (hik2 ▸ hkesc)
          exact (ih (i + 1)).2 k (by omega) (by omega) hkesc
            fun j hj1 hj2 => hmin j (by omega) hj2

/-- C8: mandel x y max_iters returns the smallest index i < max_iters such
that the iterate after i+1 updates of z = z*z + c has squared magnitude at
least 4 when such an index exists, returns 255 when no index below
max_iters escapes, and in consequence always returns a value in [0, 255]
when max_iters ≤ 255. -/
theorem mandel_correct (x y : ℚ) (m : Nat) :
    (∀ k, k < m → escaped x y k → (∀ j, j < k → ¬ escaped x y j) →
      mandel x y m = k) ∧
    ((∀ j, j < m → ¬ escaped x y j) → mandel x y m = 255) ∧
    (m ≤ 255 → mandel x y m ≤ 255) := by
  have hbase : mandel x y m = mandelLoop x y (orbit x y 0).1 (orbit x y 0).2 0 m := rfl
  have hspec := mandelLoop_spec x y m 0
  refine ⟨?_, ?_, ?_⟩
  · intro k hk hkesc hmin
    rw [hbase]
    exact hspec.2 k (by omega) (by omega) hkesc fun j _ hj2 => hmin j hj2
  · intro hnone
    rw [hbase]
    exact hspec.1 fun j _ hj2 => hnone j (by omega)
  · intro hm
    by_cases hex : ∃ k, k < m ∧ escaped x y k
    · have hfind := Nat.find_spec hex
      have hmin : ∀ j, j < Nat.find hex → ¬ (j < m ∧ escaped x y j) :=
        fun j hj => Nat.find_min hex hj
      have heq : mandel x y m = Nat.find hex := by
        rw [hbase]
        exact hspec.2 (Nat.find hex) (by omega) (by omega) hfind.2
          fun j _ hj2 => fun hesc => hmin j hj2 ⟨by omega, hesc⟩
      omega
    · push_neg at hex
      have heq : mandel x y m = 255 := by
        rw [hbase]
        exact hspec.1 fun j _ hj2 => hex j (by omega)
      omega

/-- Witness for C8: at c = 0 + 2i the very first update escapes, so mandel
returns index 0. -/
theorem mandel_correct_witness : mandel 0 2 20 = 0 :=
  (mandel_correct 0 2 20).1 0 (by omega) (by norm_num [escaped, orbit])
    (fun j hj => absurd hj (Nat.not_lt_zero j))

/-- One thread of the create_fractal kernel (mandel_cuda.py): a thread at
grid coordinates (x, y) computes the pixel sizes from the image extent and,
when x < width and y < height, writes the mandel color to image[y, x];
otherwise it performs no write. The effect is the optional single write
(target index pair, value). -/
def createFractalThread (minX maxX minY maxY : ℚ) (height width iters x y : Nat) :
    Option ((Nat × Nat) × Nat) :=
  let pixelSizeX := (maxX - minX) / (width : ℚ)
  let pixelSizeY := (maxY - minY) / (height : ℚ)
  if x < width ∧ y < height then
    some ((y, x),
      mandel (minX + (x : ℚ) * pixelSizeX) (minY + (y : ℚ) * pixelSizeY) iters)
  else
    none

/-- Apply the (at most one) write of a thread to an image, modelled as a
map from index pairs to pixel values. -/
def applyThread (img : Nat × Nat → Nat) : Option ((Nat × Nat) × Nat) → (Nat × Nat → Nat)
  | none => img
  | some pv => fun q => if q = pv.1 then pv.2 else img q

/-- C9: a create_fractal thread whose grid coordinates satisfy x ≥ width or
y ≥ height writes nothing — the image is left unchanged — and any thread
leaves every image element other than image[y, x] unchanged. -/
theorem create_fractal_frame (minX maxX minY maxY : ℚ)
    (height width iters x y : Nat) (img : Nat × Nat → Nat) :
    (width ≤ x ∨ height ≤ y →
      applyThread img (createFractalThread minX maxX minY maxY height width iters x y) = img) ∧
    (∀ q, q ≠ (y, x) →
      applyThread img (createFractalThread minX maxX minY maxY height width iters x y) q =
        img q) := by
  constructor
  · intro hout
    have hcond : ¬ (x < width ∧ y < height) := by omega
    simp [createFractalThread, hcond, applyThread]
  · intro q hq
    by_cases hcond : x < width ∧ y < height
    · simp [createFractalThread, hcond, applyThread, hq]
    · simp [createFractalThread, hcond, applyThread]

/-- Witness for C9: a thread at x = 5 outside a 4-wide image leaves the
all-zero image untouched. -/
theorem create_fractal_frame_witness :
    applyThread (fun _ => 0) (createFractalThread 0 1 0 1 4 4 10 5 0) = (fun _ => 0) :=
  (create_fractal_frame 0 1 0 1 4 4 10 5 0 (fun _ => 0)).1 (Or.inl (by omega))

/-- A quaternion a + b i + c j + d k with float components idealised as
exact rationals (named PyQuaternion here because Mathlib reserves the name
Quaternion; the source class is Quaternion). -/
structure PyQuaternion where
  a : ℚ
  b : ℚ
  c : ℚ
  d : ℚ
deriving DecidableEq

/-- Quaternion.__add__ (quaternion_solution.py): the pure-Python addition
builds the quaternion of the componentwise sums. -/
def PyQuaternion.add (q : PyQuaternion) (other : PyQuaternion) : PyQuaternion :=
  { a := q.a + other.a, b := q.b + other.b, c := q.c + other.c, d := q.d + other.d }

/-- The LLVM fadd instruction emitted by the lowering, idealised over ℚ
exactly as the Python float addition is. -/
def fadd (x y : ℚ) : ℚ := x + y

/-- cuda_quaternion_add (quaternion_solution.py): the CUDA lowering unpacks
the two argument structs q1 and q2, creates a result struct q3, and sets
q3.a, q3.b, q3.c, q3.d to the fadd of the corresponding fields. -/
def cuda_quaternion_add (q1 q2 : PyQuaternion) : PyQuaternion :=
  { a := fadd q1.a q2.a, b := fadd q1.b q2.b, c := fadd q1.c q2.c, d := fadd q1.d q2.d }

/-- C10: the CUDA lowering of the quaternion addition operator produces
exactly the componentwise sums, agreeing with the pure-Python
Quaternion.__add__ on every pair of quaternions. -/
theorem cuda_add_refines_python_add (q1 q2 : PyQuaternion) :
    cuda_quaternion_add q1 q2 = PyQuaternion.add q1 q2 := rfl
